import Mathlib

/-!
# Verification of `dns_manager` (BIND / dnsmasq remote configurator)

Shallow embedding of `src/dns_manager/core.py`.  The repository's logic is
string templating (zone files, `named.conf`, `dnsmasq.conf`), a regex-based
stanza removal in `delete_zone`, and a linear sequence of remote commands per
operation.  Pure string renders are embedded as Lean functions; each remote
operation is embedded as a function from a command oracle (what the remote
host answers to each command) to the ordered list of side-effecting actions it
performs together with the error it raises, if any.
-/

namespace DnsManager

/-- Is `p` a prefix of `l`, as a Boolean on character lists. -/
def listPrefixOf : List Char → List Char → Bool
  | [], _ => true
  | _ :: _, [] => false
  | p :: ps, c :: cs => p = c && listPrefixOf ps cs

/-- Is `p` a contiguous sublist of `l`, as a Boolean on character lists. -/
def listInfixOf (p : List Char) : List Char → Bool
  | [] => listPrefixOf p []
  | c :: cs => listPrefixOf p (c :: cs) || listInfixOf p cs

/-- Python's `needle in hay` on strings, on the underlying character lists. -/
def strContainsStr (hay needle : String) : Bool :=
  listInfixOf needle.data hay.data

/-- Python's `c in s` membership of a single character. -/
def strContainsChar (s : String) (c : Char) : Bool :=
  s.data.contains c

/-- Python's `s.endswith(suffix)`: the suffix's reversal prefixes `s`'s. -/
def strEndsWith (s suffi : String) : Bool :=
  listPrefixOf suffi.data.reverse s.data.reverse

/-- Python's `s.split('.')` (from `add_ptr_zone`, line 241, and line 259):
splits at every `'.'`, keeping empty components, never returning `[]`. -/
def splitDots : List Char → List (List Char)
  | [] => [[]]
  | c :: cs =>
    match splitDots cs with
    | [] => [[]]
    | r :: rs => if c = '.' then [] :: r :: rs else (c :: r) :: rs

/-- One DNS record as passed to `NamedServer.add_zone`
(`{"name": ..., "type": ..., "value": ...}`). -/
structure Record where
  name : String
  type : String
  value : String
deriving DecidableEq, Repr

/-- One reverse record as passed to `NamedServer.add_ptr_zone`
(`{"ip": ..., "hostname": ...}`). -/
structure PtrRecord where
  ip : String
  hostname : String
deriving DecidableEq, Repr

/-- The CNAME value adjustment of `add_zone` (core.py lines 180–187):
a value containing a dot and not already ending in a dot gets one appended. -/
def cnameValue (v : String) : String :=
  if strContainsChar v '.' then
    if strEndsWith v "." then v else v ++ "."
  else v

/-- The line `add_zone` emits for one A record (core.py lines 171–175).
The source special-cases `record['name'] == '@'`, emitting the literal `@`. -/
def aLine (r : Record) : String :=
  if r.name = "@" then "@    IN    A    " ++ r.value ++ "\n"
  else r.name ++ "    IN    A    " ++ r.value ++ "\n"

/-- The line `add_zone` emits for one CNAME record (core.py line 188). -/
def cnameLine (r : Record) : String :=
  r.name ++ "    IN    CNAME    " ++ cnameValue r.value ++ "\n"

/-- The record section of the zone file built by `add_zone`
(core.py lines 169–188): one pass appending A lines, then a second pass
appending CNAME lines; records of any other type are skipped by both passes. -/
def recordLines (records : List Record) : String :=
  (records.foldl (fun acc r => if r.type = "A" then acc ++ aLine r else acc) "")
    ++ (records.foldl
      (fun acc r => if r.type = "CNAME" then acc ++ cnameLine r else acc) "")

/-- The zone file header of `add_zone` (core.py lines 155–168); the serial is
`int(time.time())`, taken here as a parameter.  The triple-quoted literal in
the source carries a four-space indent on every line after the first. -/
def zoneHeader (zoneName : String) (serial : Nat) : String :=
  "$TTL 86400\n    @       IN      SOA     " ++ zoneName ++ ". admin."
    ++ zoneName ++ ". (\n                            " ++ toString serial
    ++ "  ; Serial\n                            3600        ; Refresh\n"
    ++ "                            1800        ; Retry\n"
    ++ "                            604800      ; Expire\n"
    ++ "                            86400 )     ; Minimum TTL\n\n"
    ++ "    ; Name servers\n    @       IN      NS      ns1." ++ zoneName
    ++ ".\n    @       IN      NS      ns2." ++ zoneName
    ++ ".\n\n    ; A Records and CNAME Records\n    "

/-- The whole zone file content written by `add_zone`. -/
def zoneContent (zoneName : String) (serial : Nat) (records : List Record) :
    String :=
  zoneHeader zoneName serial ++ recordLines records

/-- The reverse zone name derived by `add_ptr_zone` (core.py lines 240–242):
`network.split('.')` and `f"{p[2]}.{p[1]}.{p[0]}.in-addr.arpa"`.  Python
raises `IndexError` when fewer than three components exist; that is `none`. -/
def reverseZone (network : String) : Option String :=
  match splitDots network.data with
  | p0 :: p1 :: p2 :: _ =>
      some (String.mk p2 ++ "." ++ String.mk p1 ++ "." ++ String.mk p0
        ++ ".in-addr.arpa")
  | _ => none

/-- The last octet extraction of `add_ptr_zone` (core.py line 259):
`record['ip'].split('.')[-1]`.  `split` never returns an empty list, so the
default of `getLastD` is unreachable. -/
def lastOctet (ip : String) : String :=
  String.mk ((splitDots ip.data).getLastD [])

/-- One PTR line of `add_ptr_zone` (core.py line 260). -/
def ptrLine (r : PtrRecord) : String :=
  lastOctet r.ip ++ "    IN    PTR    " ++ r.hostname ++ "\n"

/-- The PTR record section of `add_ptr_zone` (core.py lines 257–260):
one pass over the records in input order. -/
def ptrLines (records : List PtrRecord) : String :=
  records.foldl (fun acc r => acc ++ ptrLine r) ""

/-- Options accepted by `DnsmasqServer.configure`: `config['upstream_dns']`
is required, `config.get('cache_size', 0)` defaults to `0`. -/
structure DnsmasqOptions where
  upstream_dns : String
  cache_size : Option Nat
deriving DecidableEq, Repr

/-- The dnsmasq configuration rendered by `DnsmasqServer.configure`
(core.py lines 369–375): two entries joined with a newline. -/
def dnsmasqConf (o : DnsmasqOptions) : String :=
  "server=" ++ o.upstream_dns ++ "\n" ++ "cache-size="
    ++ toString (o.cache_size.getD 0)

/-- Python's `s.split('\n')`, for counting lines of the dnsmasq render. -/
def splitNewlines : List Char → List (List Char)
  | [] => [[]]
  | c :: cs =>
    match splitNewlines cs with
    | [] => [[]]
    | r :: rs => if c = '\n' then [] :: r :: rs else (c :: r) :: rs

/-- Modelled from the spec: the single error kind of the repository
("configuration error carrying a human-readable message", §7).  The class
`DNSConfigError` lives in `dns_manager/exceptions.py`, which is not under
`src/`; only its uses in `core.py` are. -/
structure DNSConfigError where
  message : String
deriving DecidableEq, Repr

/-- One observable side effect of an operation: running a remote command,
or writing / appending a remote file over SFTP. -/
inductive Action where
  | exec (cmd : String)
  | writeFile (path content : String)
  | appendFile (path content : String)
deriving DecidableEq, Repr

/-- The remote host as an oracle: what `execute_command` returns
(`stdout, stderr`) for each command issued. -/
structure CommandOracle where
  run : String → String × String

/-- `SSHClient.connect` (core.py lines 20–29): the underlying transport
attempt (paramiko, external to the repository) either succeeds or fails with
a message; any failure is wrapped into a `DNSConfigError` naming the host. -/
def connect (hostname : String) (transport : Except String Unit) :
    Except DNSConfigError Unit :=
  match transport with
  | .ok _ => .ok ()
  | .error e =>
      .error ⟨"Failed to connect to " ++ hostname ++ ": " ++ e⟩

/-- `NamedServer.install` (core.py lines 44–62): query the package; when the
marker `bind-` appears in stdout, do nothing more, else install, enable and
start the service. -/
def installNamed (w : CommandOracle) : List Action :=
  if strContainsStr (w.run "rpm -q bind").1 "bind-" then
    [.exec "rpm -q bind"]
  else
    [.exec "rpm -q bind", .exec "yum -y install bind bind-utils",
     .exec "systemctl enable named", .exec "systemctl start named"]

/-- The `named.conf` rendered by `NamedServer.configure`
(core.py lines 74–100), a fixed template around `config['forwarder']`. -/
def namedConfContent (forwarder : String) : String :=
  "\noptions \x7b\n        listen-on port 53 \x7b any; \x7d;\n"
    ++ "        listen-on-v6 \x7b none; \x7d;\n"
    ++ "        directory       \"/var/named\";\n"
    ++ "        dump-file       \"/var/named/data/cache_dump.db\";\n"
    ++ "        statistics-file \"/var/named/data/named_stats.txt\";\n"
    ++ "        memstatistics-file \"/var/named/data/named_mem_stats.txt\";\n"
    ++ "        secroots-file   \"/var/named/data/named.secroots\";\n"
    ++ "        recursing-file  \"/var/named/data/named.recursing\";\n"
    ++ "        allow-query     \x7b any; \x7d;\n        forward only;\n"
    ++ "        forwarders \x7b " ++ forwarder ++ "; \x7d;\n\x7d;\n\n"
    ++ "logging \x7b\n        channel default_debug \x7b\n"
    ++ "                file \"data/named.run\";\n"
    ++ "                severity dynamic;\n        \x7d;\n\x7d;\n\n"
    ++ "zone \".\" IN \x7b\n        type hint;\n        file \"named.ca\";\n\x7d;\n"

/-- `NamedServer.configure` before its outer exception wrapper
(core.py lines 66–131): install, backup, write the rendered config, check it
with `named-checkconf` (non-empty stderr aborts), fix permissions, restart,
and require `active` in the status output.  Returns the ordered actions
performed and the raised message, if any. -/
def configureNamedRaw (w : CommandOracle) (forwarder : String) :
    List Action × Option String :=
  let acts := installNamed w
    ++ [.exec "cp /etc/named.conf /etc/named.conf.bak 2>/dev/null || true",
        .writeFile "/etc/named.conf" (namedConfContent forwarder),
        .exec "named-checkconf"]
  let checkErr := (w.run "named-checkconf").2
  if checkErr ≠ "" then
    (acts, some ("named.conf syntax error: " ++ checkErr))
  else
    let acts := acts
      ++ [.exec "chown root:named /etc/named.conf",
          .exec "restorecon -v /etc/named.conf",
          .exec "chmod 640 /etc/named.conf",
          .exec "systemctl restart named",
          .exec "systemctl is-active named"]
    if strContainsStr (w.run "systemctl is-active named").1 "active" then
      (acts, none)
    else
      (acts, some "named failed to start after configuration")

/-- `NamedServer.configure` with its outer wrapper (core.py lines 133–135):
any raised message is re-raised as
`DNSConfigError("Failed to configure BIND: ...")`. -/
def configureNamed (w : CommandOracle) (forwarder : String) :
    List Action × Option DNSConfigError :=
  match configureNamedRaw w forwarder with
  | (acts, some m) => (acts, some ⟨"Failed to configure BIND: " ++ m⟩)
  | (acts, none) => (acts, none)

/-- The zone stanza `add_zone` appends to `named.conf`
(core.py lines 206–212); the triple-quoted literal carries the method's
four-space indent and the body holds an inner `{ none; }`. -/
def zoneStanzaAppended (zoneName zoneType : String) : String :=
  "\n    zone \"" ++ zoneName ++ "\" IN \x7b\n            type " ++ zoneType
    ++ ";\n            file \"db." ++ zoneName
    ++ "\";\n            allow-update \x7b none; \x7d;\n    \x7d;\n    "

/-- `NamedServer.add_zone` before its outer wrapper (core.py lines 153–231):
write the zone file, fix permissions, append the stanza, check the config
(non-empty stderr aborts), check the zone file (non-empty stderr lacking
`OK` aborts), restart. `zoneType` is `zone_config.get('type', 'master')`
and `serial` is `int(time.time())`. -/
def addZoneRaw (w : CommandOracle) (zoneName : String) (serial : Nat)
    (zoneType : String) (records : List Record) :
    List Action × Option String :=
  let zoneFilePath := "/var/named/db." ++ zoneName
  let checkZoneCmd := "named-checkzone " ++ zoneName ++ " " ++ zoneFilePath
  let acts :=
    [.writeFile zoneFilePath (zoneContent zoneName serial records),
     .exec ("chown root:named " ++ zoneFilePath),
     .exec ("chmod 640 " ++ zoneFilePath),
     .exec ("restorecon -v " ++ zoneFilePath),
     .appendFile "/etc/named.conf" (zoneStanzaAppended zoneName zoneType),
     .exec "named-checkconf"]
  let confErr := (w.run "named-checkconf").2
  if confErr ≠ "" then
    (acts, some ("Zone configuration error: " ++ confErr))
  else
    let acts := acts ++ [.exec checkZoneCmd]
    let zoneErr := (w.run checkZoneCmd).2
    if zoneErr ≠ "" ∧ ¬ strContainsStr zoneErr "OK" then
      (acts, some ("Zone file syntax error: " ++ zoneErr))
    else
      (acts ++ [.exec "systemctl restart named"], none)

/-- `NamedServer.add_zone` with its outer wrapper (core.py lines 233–235). -/
def addZone (w : CommandOracle) (zoneName : String) (serial : Nat)
    (zoneType : String) (records : List Record) :
    List Action × Option DNSConfigError :=
  match addZoneRaw w zoneName serial zoneType records with
  | (acts, some m) => (acts, some ⟨"Zone configuration failed: " ++ m⟩)
  | (acts, none) => (acts, none)

/-! ## The regex of `delete_zone`

`delete_zone` (core.py lines 316–318) builds
`zone_pattern = f'zone "{zone_name}" IN \x7b[^\x7d]+\x7d;'` and runs
`re.sub(zone_pattern, '', conf_content)`.  The zone name is interpolated
into the pattern unescaped, so a `'.'` inside it is the regex single-character
wildcard (anything but a newline); we restrict attention to names whose other
characters are regex-literal.  The fixed parts of the pattern are literal.
`[^\x7d]+` matches greedily up to the first closing brace, which must then be
followed by `;` (backtracking cannot help, since no shorter run puts a brace
under `[^\x7d]`).  `re.sub` scans left to right, removing each match and
resuming right after it. -/

/-- One pattern character against one text character: `'.'` is the wildcard
(anything but a newline), everything else in a zone name we consider is
literal. -/
def charMatch (p c : Char) : Bool :=
  if p = '.' then decide (c ≠ '\n') else decide (p = c)

/-- Characters that Python `re` treats specially; a zone name made of other
characters (plus `'.'`) turns into the pattern our matcher implements. -/
def regexLiteralChar (c : Char) : Bool :=
  !(['.', '*', '+', '?', '(', ')', '[', ']', '\x7b', '\x7d', '\\', '|',
     '^', '$', '"', '\n'].contains c)

/-- A deletion target whose regex reading our matcher captures: every
character is either the dot wildcard or regex-literal. -/
def targetOk (t : String) : Bool :=
  t.data.all fun c => c = '.' || regexLiteralChar c

/-- Match a list of pattern characters against the front of the text,
returning the remainder on success. -/
def matchChars : List Char → List Char → Option (List Char)
  | [], cs => some cs
  | _ :: _, [] => none
  | p :: ps, c :: cs => if charMatch p c then matchChars ps cs else none

/-- After at least one non-brace character: scan to the first `\x7d`, which
must be followed by `;`. -/
def matchBodyTail : List Char → Option (List Char)
  | [] => none
  | c :: cs =>
    if c = '\x7d' then
      match cs with
      | ';' :: r => some r
      | _ => none
    else matchBodyTail cs

/-- The `[^\x7d]+\x7d;` tail of the pattern: one non-brace character, then
scan to the first brace, which must be followed by `;`. -/
def matchBody : List Char → Option (List Char)
  | [] => none
  | c :: cs => if c = '\x7d' then none else matchBodyTail cs

/-- The literal/wildcard head of the pattern:
`zone "<target>" IN \x7b`. -/
def patHead (target : String) : List Char :=
  'z' :: 'o' :: 'n' :: 'e' :: ' ' :: '"' ::
    (target.data ++ ('"' :: ' ' :: 'I' :: 'N' :: ' ' :: '\x7b' :: []))

/-- Try the whole pattern at the current position. -/
def matchAt (target : String) (cs : List Char) : Option (List Char) :=
  match matchChars (patHead target) cs with
  | some rest => matchBody rest
  | none => none

/-- `re.sub(pattern, '', text)`, fuel-indexed to stay structural; with fuel
at least the text length the fuel never runs out. -/
def reSubGo (target : String) : Nat → List Char → List Char
  | 0, cs => cs
  | _ + 1, [] => []
  | f + 1, c :: cs =>
    match matchAt target (c :: cs) with
    | some rest => reSubGo target f rest
    | none => c :: reSubGo target f cs

/-- `re.sub(zone_pattern, '', conf_content)` from `delete_zone`. -/
def reSub (target : String) (cs : List Char) : List Char :=
  reSubGo target cs.length cs

/-- The new `named.conf` content computed by `delete_zone`
(core.py lines 316–318). -/
def deleteZoneNewContent (zoneName confContent : String) : String :=
  String.mk (reSub zoneName confContent.data)

/-- `DnsmasqServer.install` (core.py lines 339–357). -/
def installDnsmasq (w : CommandOracle) : List Action :=
  if strContainsStr (w.run "rpm -q dnsmasq").1 "dnsmasq-" then
    [.exec "rpm -q dnsmasq"]
  else
    [.exec "rpm -q dnsmasq", .exec "yum -y install dnsmasq",
     .exec "systemctl enable dnsmasq", .exec "systemctl start dnsmasq"]

/-- `DnsmasqServer.configure` (core.py lines 359–385): install, backup,
write the two-entry render, restart.  The source file ends mid-function
right after the restart (at the `# Verify` comment), so the operation as
present in `src/` performs exactly these actions. -/
def configureDnsmasq (w : CommandOracle) (o : DnsmasqOptions) :
    List Action × Option DNSConfigError :=
  let acts := installDnsmasq w
    ++ [.exec "cp /etc/dnsmasq.conf /etc/dnsmasq.conf.bak 2>/dev/null || true",
        .writeFile "/etc/dnsmasq.conf" (dnsmasqConf o),
        .exec "systemctl restart dnsmasq"]
  (acts, none)


/-! ## Configurations of simple zone stanzas

The shape named by the spec's `delete_zone` property: a main configuration
that is an alternation of separator text and simple stanzas
`zone "<name>" IN \x7b<body>\x7d;` whose bodies hold no brace. -/

/-- Pointwise match of the (regex-read) deletion target against a stanza
name: equal lengths and `charMatch` at every position, so any `'.'` in the
target matches any non-newline character of the name. -/
def listCharMatch : List Char → List Char → Bool
  | [], [] => true
  | p :: ps, c :: cs => charMatch p c && listCharMatch ps cs
  | _, _ => false

/-- One simple stanza of the main configuration. -/
structure Stanza where
  name : String
  body : String
deriving DecidableEq, Repr

/-- The text of a simple stanza: `zone "<name>" IN \x7b<body>\x7d;`. -/
def stanzaChars (z : Stanza) : List Char :=
  'z' :: 'o' :: 'n' :: 'e' :: ' ' :: '"' ::
    (z.name.data ++ ('"' :: ' ' :: 'I' :: 'N' :: ' ' :: '\x7b' ::
      (z.body.data ++ ('\x7d' :: ';' :: []))))

/-- A main configuration: separator text before each stanza, then trailing
text.  Rendered by concatenation. -/
def renderItems : List (String × Stanza) → String → List Char
  | [], t => t.data
  | (s, z) :: rest, t => s.data ++ (stanzaChars z ++ renderItems rest t)

/-- The configuration with every stanza whose name matches the (regex-read)
target removed and everything else kept character for character. -/
def deleteRender (target : String) :
    List (String × Stanza) → String → List Char
  | [], t => t.data
  | (s, z) :: rest, t =>
    if listCharMatch target.data z.name.data then
      s.data ++ deleteRender target rest t
    else
      s.data ++ (stanzaChars z ++ deleteRender target rest t)

/-- A simple stanza: quote-free space-free name, nonempty quote-free
brace-free body. -/
def stanzaOk (z : Stanza) : Bool :=
  !(z.name.data.contains '"') && !(z.name.data.contains ' ')
    && !(z.body.data.contains '"') && !(z.body.data.contains '\x7d')
    && !z.body.data.isEmpty

/-- Separator text between stanzas: quote-free and containing a newline
(named.conf stanzas sit on lines of their own). -/
def sepOk (s : String) : Bool :=
  !(s.data.contains '"') && s.data.contains '\n'

/-- Trailing text after the last stanza: quote-free. -/
def trailingOk (t : String) : Bool :=
  !(t.data.contains '"')

/-- A text position from which any match attempt must cross a quote-free
region and then either end or hit a newline before any quote: the literal
`"` of the pattern cannot be satisfied there. -/
def QuoteBlocked (tx : List Char) : Prop :=
  (∀ c ∈ tx, c ≠ '"') ∨
    ∃ u rest, tx = u ++ '\n' :: rest ∧ ∀ c ∈ u, c ≠ '"'

/-- Concatenation of a list of strings, for stating rendering order. -/
def strConcat : List String → String
  | [] => ""
  | s :: rest => s ++ strConcat rest

/-- The contents written to the main configuration file in a trace. -/
def confWrites (acts : List Action) : List String :=
  acts.filterMap fun a =>
    match a with
    | .writeFile p c => if p = "/etc/named.conf" then some c else none
    | _ => none

/-- A concrete remote host whose `named-checkconf` reports an error on
stderr, for exercising the abort paths. -/
def oracleConfFail : CommandOracle :=
  ⟨fun c => if c = "named-checkconf" then ("", "boom") else ("active", "")⟩

/-- A concrete remote host whose `named-checkzone` reports an error on
stderr without an `OK`, while `named-checkconf` is clean. -/
def oracleZoneFail : CommandOracle :=
  ⟨fun c => if c = "named-checkconf" then ("", "")
    else if c = "named-checkzone z /var/named/db.z" then ("", "bad zone")
    else ("active", "")⟩

theorem matchChars_length {ps cs r : List Char}
    (h : matchChars ps cs = some r) : r.length ≤ cs.length := by
  induction ps generalizing cs with
  | nil => simp [matchChars] at h; simp [h]
  | cons p ps ih =>
    cases cs with
    | nil => simp [matchChars] at h
    | cons c cs =>
      simp only [matchChars] at h
      split at h
      · exact Nat.le_succ_of_le (ih h)
      · exact absurd h (by simp)

theorem matchBodyTail_length {cs r : List Char}
    (h : matchBodyTail cs = some r) : r.length < cs.length := by
  induction cs with
  | nil => simp [matchBodyTail] at h
  | cons c cs ih =>
    simp only [matchBodyTail] at h
    split at h
    · cases cs with
      | nil => simp at h
      | cons d cs' =>
        by_cases hd : d = ';'
        · subst hd; simp at h; simp [← h]; omega
        · simp [hd] at h
    · exact Nat.lt_succ_of_lt (ih h)

theorem matchBody_length {cs r : List Char}
    (h : matchBody cs = some r) : r.length < cs.length := by
  cases cs with
  | nil => simp [matchBody] at h
  | cons c cs =>
    simp only [matchBody] at h
    split at h
    · exact absurd h (by simp)
    · exact Nat.lt_succ_of_lt (matchBodyTail_length h)

theorem matchAt_length {target : String} {cs r : List Char}
    (h : matchAt target cs = some r) : r.length < cs.length := by
  simp only [matchAt] at h
  split at h
  · next m hm => exact lt_of_lt_of_le (matchBody_length h) (matchChars_length hm)
  · exact absurd h (by simp)

theorem reSubGo_fuel {target : String} :
    ∀ (f₁ f₂ : Nat) (cs : List Char), cs.length ≤ f₁ → cs.length ≤ f₂ →
      reSubGo target f₁ cs = reSubGo target f₂ cs := by
  intro f₁
  induction f₁ with
  | zero =>
    intro f₂ cs h₁ _
    have : cs = [] := List.eq_nil_of_length_eq_zero (Nat.le_zero.mp h₁)
    subst this
    cases f₂ <;> rfl
  | succ g ih =>
    intro f₂ cs h₁ h₂
    cases cs with
    | nil => cases f₂ <;> rfl
    | cons c cs' =>
      cases f₂ with
      | zero => simp at h₂
      | succ h =>
        simp only [reSubGo]
        cases hm : matchAt target (c :: cs') with
        | some rest =>
          have hr : rest.length ≤ g := by
            have := matchAt_length hm
            simp at this h₁
            omega
          have hr2 : rest.length ≤ h := by
            have := matchAt_length hm
            simp at this h₂
            omega
          exact ih h rest hr hr2
        | none =>
          have : cs'.length ≤ g := by simp at h₁; omega
          have h2 : cs'.length ≤ h := by simp at h₂; omega
          rw [ih h cs' this h2]

theorem reSub_cons_match {target : String} {c : Char} {cs rest : List Char}
    (h : matchAt target (c :: cs) = some rest) :
    reSub target (c :: cs) = reSub target rest := by
  have hlt : rest.length ≤ cs.length := by
    have := matchAt_length h
    simp at this
    omega
  simp only [reSub, List.length_cons, reSubGo, h]
  exact reSubGo_fuel cs.length rest.length rest hlt le_rfl

theorem reSub_cons_nomatch {target : String} {c : Char} {cs : List Char}
    (h : matchAt target (c :: cs) = none) :
    reSub target (c :: cs) = c :: reSub target cs := by
  simp only [reSub, List.length_cons, reSubGo, h]

theorem reSub_nil {target : String} : reSub target [] = [] := rfl

/-- Scanning a block none of whose nonempty suffixes starts a match emits the
block unchanged. -/
theorem reSub_append_of_noMatch (target : String) (w rest : List Char)
    (h : ∀ w₁ w₂, w = w₁ ++ w₂ → w₂ ≠ [] →
      matchAt target (w₂ ++ rest) = none) :
    reSub target (w ++ rest) = w ++ reSub target rest := by
  induction w with
  | nil => rfl
  | cons c w' ih =>
    have h0 : matchAt target (c :: (w' ++ rest)) = none := by
      have := h [] (c :: w') rfl (by simp)
      simpa using this
    have hstep : reSub target (c :: (w' ++ rest)) =
        c :: reSub target (w' ++ rest) := reSub_cons_nomatch h0
    have hih : reSub target (w' ++ rest) = w' ++ reSub target rest := by
      apply ih
      intro w₁ w₂ hw hne
      exact h (c :: w₁) w₂ (by rw [hw]; rfl) hne
    rw [List.cons_append, hstep, hih, List.cons_append]

theorem matchChars_quote_noQuote (a ps : List Char) {u : List Char}
    (hu : ∀ c ∈ u, c ≠ '"') : matchChars (a ++ '"' :: ps) u = none := by
  induction a generalizing u with
  | nil =>
    cases u with
    | nil => rfl
    | cons c u' =>
      have hc : charMatch '"' c = false := by
        have := hu c (by simp)
        simp [charMatch]
        exact fun h => this h.symm
      simp [matchChars, hc]
  | cons p a' ih =>
    cases u with
    | nil => rfl
    | cons c u' =>
      simp only [List.cons_append, matchChars]
      split
      · exact ih fun d hd => hu d (List.mem_cons_of_mem _ hd)
      · rfl

theorem matchChars_quote_newline {a ps u rest : List Char}
    (ha : ∀ c ∈ a, charMatch c '\n' = false)
    (hu : ∀ c ∈ u, c ≠ '"') :
    matchChars (a ++ '"' :: ps) (u ++ '\n' :: rest) = none := by
  induction a generalizing u with
  | nil =>
    cases u with
    | nil => simp [matchChars, charMatch]
    | cons c u' =>
      have hc : charMatch '"' c = false := by
        have := hu c (by simp)
        simp [charMatch]
        exact fun h => this h.symm
      simp [matchChars, hc]
  | cons p a' ih =>
    cases u with
    | nil =>
      have hp : charMatch p '\n' = false := ha p (by simp)
      simp [matchChars, hp]
    | cons c u' =>
      simp only [List.cons_append, matchChars]
      split
      · exact ih (fun d hd => ha d (by simp [hd]))
          (fun d hd => hu d (by simp [hd]))
      · rfl

theorem quoteBlocked_append {u tx : List Char}
    (hu : ∀ c ∈ u, c ≠ '"') (h : QuoteBlocked tx) :
    QuoteBlocked (u ++ tx) := by
  rcases h with h | ⟨v, rest, hv, hvq⟩
  · left
    intro c hc
    rcases List.mem_append.mp hc with hc | hc
    · exact hu c hc
    · exact h c hc
  · right
    refine ⟨u ++ v, rest, by rw [hv, List.append_assoc], ?_⟩
    intro c hc
    rcases List.mem_append.mp hc with hc | hc
    · exact hu c hc
    · exact hvq c hc

/-- The central comparison: the target part of the pattern against the name
part of a stanza.  The match goes through exactly when the target matches the
name pointwise; it can never succeed by eating past the name's closing quote,
because the pattern's own literal `"` would then have to be satisfied in a
quote-blocked region. -/
theorem matchChars_nameRegion (tgt n ps tx : List Char)
    (htgt : ∀ c ∈ tgt, c ≠ '"' ∧ charMatch c '\n' = false)
    (hn : ∀ c ∈ n, c ≠ '"')
    (htx : QuoteBlocked tx) :
    matchChars (tgt ++ '"' :: ps) (n ++ '"' :: tx) =
      if listCharMatch tgt n then matchChars ps tx else none := by
  induction tgt generalizing n with
  | nil =>
    cases n with
    | nil => simp [matchChars, listCharMatch, charMatch]
    | cons d n' =>
      have hd : charMatch '"' d = false := by
        have := hn d (by simp)
        simp [charMatch]
        exact fun h => this h.symm
      simp [matchChars, listCharMatch, hd]
  | cons p tgt' ih =>
    cases n with
    | nil =>
      simp only [List.nil_append, List.cons_append, matchChars, listCharMatch]
      have hrest : matchChars (tgt' ++ '"' :: ps) tx = none := by
        rcases htx with h | ⟨u, rest, hu, huq⟩
        · exact matchChars_quote_noQuote _ _ h
        · rw [hu]
          exact matchChars_quote_newline
            (fun c hc => (htgt c (by simp [hc])).2) huq
      split
      · simpa using hrest
      · simp
    | cons d n' =>
      simp only [List.cons_append, matchChars, listCharMatch, List.append_eq]
      by_cases hpd : charMatch p d = true
      · rw [if_pos hpd, ih n' (fun c hc => htgt c (by simp [hc]))
          (fun c hc => hn c (by simp [hc]))]
        simp [hpd]
      · rw [if_neg hpd]
        simp at hpd
        simp [hpd]

theorem matchBodyTail_run {b : List Char} (tx : List Char)
    (hb : ∀ c ∈ b, c ≠ '\x7d') :
    matchBodyTail (b ++ '\x7d' :: ';' :: tx) = some tx := by
  induction b with
  | nil => simp [matchBodyTail]
  | cons c b' ih =>
    have hc := hb c (by simp)
    have ih' := ih fun d hd => hb d (List.mem_cons_of_mem _ hd)
    simp [matchBodyTail, hc, ih']

theorem matchBody_run {b tx : List Char} (hb₁ : b ≠ [])
    (hb₂ : ∀ c ∈ b, c ≠ '\x7d') :
    matchBody (b ++ '\x7d' :: ';' :: tx) = some tx := by
  cases b with
  | nil => exact absurd rfl hb₁
  | cons c b' =>
    have hc := hb₂ c (by simp)
    have ht := matchBodyTail_run tx
      fun d hd => hb₂ d (List.mem_cons_of_mem _ hd)
    simp [matchBody, hc, ht]

theorem targetOk_spec {t : String} (h : targetOk t = true) :
    ∀ c ∈ t.data, c ≠ '"' ∧ charMatch c '\n' = false := by
  intro c hc
  have hall := (List.all_eq_true.mp h) c hc
  simp only [Bool.or_eq_true, decide_eq_true_eq] at hall
  rcases hall with hdot | hlit
  · subst hdot
    exact ⟨by decide, by decide⟩
  · have hmem : ¬ (['.', '*', '+', '?', '(', ')', '[', ']', '\x7b', '\x7d',
        '\\', '|', '^', '$', '"', '\n'] : List Char).contains c = true := by
      simp only [regexLiteralChar, Bool.not_eq_true'] at hlit
      rw [hlit]
      simp
    refine ⟨?_, ?_⟩
    · intro hq
      exact hmem (by subst hq; decide)
    · have hdot : ¬ c = '.' := fun hh => hmem (by subst hh; decide)
      have hnl : ¬ c = '\n' := fun hh => hmem (by subst hh; decide)
      simp [charMatch, hdot, hnl]

theorem matchAt_head_ne_z {target : String} {c : Char} {cs : List Char}
    (h : c ≠ 'z') : matchAt target (c :: cs) = none := by
  have hz : ('z' : Char) ≠ c := fun hh => h hh.symm
  simp [matchAt, patHead, matchChars, charMatch, hz]

theorem matchAt_noQuote {target : String} {cs : List Char}
    (h : ∀ c ∈ cs, c ≠ '"') : matchAt target cs = none := by
  have hnoq := matchChars_quote_noQuote ['z', 'o', 'n', 'e', ' ']
    (target.data ++ ('"' :: ' ' :: 'I' :: 'N' :: ' ' :: '\x7b' :: [])) h
  simp only [List.cons_append, List.nil_append] at hnoq
  simp [matchAt, patHead, hnoq]

theorem matchAt_inSep {target : String} {u v : List Char} (hne : u ≠ [])
    (hu : ∀ c ∈ u, c ≠ '"') :
    matchAt target
      (u ++ ('z' :: 'o' :: 'n' :: 'e' :: ' ' :: '"' :: v)) = none := by
  match u, hne with
  | [d1], _ =>
    simp [matchAt, patHead, matchChars, charMatch, ite_self]
  | [d1, d2], _ =>
    simp [matchAt, patHead, matchChars, charMatch, ite_self]
  | [d1, d2, d3], _ =>
    simp [matchAt, patHead, matchChars, charMatch, ite_self]
  | [d1, d2, d3, d4], _ =>
    simp [matchAt, patHead, matchChars, charMatch, ite_self]
  | [d1, d2, d3, d4, d5], _ =>
    simp [matchAt, patHead, matchChars, charMatch, ite_self]
  | d1 :: d2 :: d3 :: d4 :: d5 :: d6 :: u', _ =>
    have h6 : ('"' : Char) ≠ d6 := fun hh => (hu d6 (by simp)) hh.symm
    simp [matchAt, patHead, matchChars, charMatch, h6, ite_self]

theorem matchAt_inName {target : String} {u tx : List Char} (hne : u ≠ [])
    (hu : ∀ c ∈ u, c ≠ '"') (hsp : ∀ c ∈ u, c ≠ ' ') :
    matchAt target (u ++ '"' :: tx) = none := by
  match u, hne with
  | [d1], _ =>
    simp [matchAt, patHead, matchChars, charMatch, ite_self]
  | [d1, d2], _ =>
    simp [matchAt, patHead, matchChars, charMatch, ite_self]
  | [d1, d2, d3], _ =>
    simp [matchAt, patHead, matchChars, charMatch, ite_self]
  | [d1, d2, d3, d4], _ =>
    simp [matchAt, patHead, matchChars, charMatch, ite_self]
  | [d1, d2, d3, d4, d5], _ =>
    have h5 : (' ' : Char) ≠ d5 := fun hh => (hsp d5 (by simp)) hh.symm
    simp [matchAt, patHead, matchChars, charMatch, h5, ite_self]
  | d1 :: d2 :: d3 :: d4 :: d5 :: d6 :: u', _ =>
    have h6 : ('"' : Char) ≠ d6 := fun hh => (hu d6 (by simp)) hh.symm
    simp [matchAt, patHead, matchChars, charMatch, h6, ite_self]

theorem matchAt_inBody {target : String} {u tx : List Char} (hne : u ≠ [])
    (hu : ∀ c ∈ u, c ≠ '"') :
    matchAt target (u ++ '\x7d' :: tx) = none := by
  match u, hne with
  | [d1], _ =>
    simp [matchAt, patHead, matchChars, charMatch, ite_self]
  | [d1, d2], _ =>
    simp [matchAt, patHead, matchChars, charMatch, ite_self]
  | [d1, d2, d3], _ =>
    simp [matchAt, patHead, matchChars, charMatch, ite_self]
  | [d1, d2, d3, d4], _ =>
    simp [matchAt, patHead, matchChars, charMatch, ite_self]
  | [d1, d2, d3, d4, d5], _ =>
    simp [matchAt, patHead, matchChars, charMatch, ite_self]
  | d1 :: d2 :: d3 :: d4 :: d5 :: d6 :: u', _ =>
    have h6 : ('"' : Char) ≠ d6 := fun hh => (hu d6 (by simp)) hh.symm
    simp [matchAt, patHead, matchChars, charMatch, h6, ite_self]

/-- At the start of a simple stanza the pattern matches exactly when the
(regex-read) target matches the stanza name, and then consumes exactly the
stanza. -/
theorem matchAt_stanza {target : String} {z : Stanza} {rest : List Char}
    (htgt : targetOk target = true)
    (hname : ∀ c ∈ z.name.data, c ≠ '"')
    (hbody₁ : z.body.data ≠ [])
    (hbody₂ : ∀ c ∈ z.body.data, c ≠ '\x7d')
    (hbody₃ : ∀ c ∈ z.body.data, c ≠ '"')
    (hrest : QuoteBlocked rest) :
    matchAt target (stanzaChars z ++ rest) =
      if listCharMatch target.data z.name.data then some rest else none := by
  have htx : QuoteBlocked
      (' ' :: 'I' :: 'N' :: ' ' :: '\x7b' ::
        (z.body.data ++ ('\x7d' :: ';' :: rest))) := by
    have h1 : QuoteBlocked ('\x7d' :: ';' :: rest) := by
      have := quoteBlocked_append (u := ['\x7d', ';']) (by decide) hrest
      simpa using this
    have h2 := quoteBlocked_append (u := z.body.data) hbody₃ h1
    have h3 := quoteBlocked_append
      (u := [' ', 'I', 'N', ' ', '\x7b']) (by decide) h2
    simpa using h3
  have hmain := matchChars_nameRegion target.data z.name.data
    (' ' :: 'I' :: 'N' :: ' ' :: '\x7b' :: [])
    (' ' :: 'I' :: 'N' :: ' ' :: '\x7b' ::
      (z.body.data ++ ('\x7d' :: ';' :: rest)))
    (targetOk_spec htgt) hname htx
  have hps : matchChars (' ' :: 'I' :: 'N' :: ' ' :: '\x7b' :: [])
      (' ' :: 'I' :: 'N' :: ' ' :: '\x7b' ::
        (z.body.data ++ ('\x7d' :: ';' :: rest)))
      = some (z.body.data ++ ('\x7d' :: ';' :: rest)) := by
    simp [matchChars, charMatch]
  rw [hps] at hmain
  have hstep : matchChars (patHead target) (stanzaChars z ++ rest) =
      matchChars
        (target.data ++ ('"' :: ' ' :: 'I' :: 'N' :: ' ' :: '\x7b' :: []))
        (z.name.data ++ '"' :: ' ' :: 'I' :: 'N' :: ' ' :: '\x7b' ::
          (z.body.data ++ ('\x7d' :: ';' :: rest))) := by
    simp [patHead, stanzaChars, matchChars, charMatch]
  simp only [matchAt, hstep, hmain]
  by_cases hm : listCharMatch target.data z.name.data = true
  · simp only [hm, if_true]
    simpa using matchBody_run hbody₁ hbody₂
  · simp [hm]

theorem not_contains_spec {l : List Char} {a : Char}
    (h : l.contains a = false) : ∀ c ∈ l, c ≠ a := by
  intro c hc hca
  subst hca
  have h2 : l.contains c = true := List.elem_eq_true_of_mem hc
  rw [h2] at h
  simp at h

theorem reSub_skipBlock (target : String) (w rest : List Char)
    (h : ∀ c ∈ w, c ≠ 'z') :
    reSub target (w ++ rest) = w ++ reSub target rest := by
  apply reSub_append_of_noMatch
  intro w₁ w₂ hw hne
  cases w₂ with
  | nil => exact absurd rfl hne
  | cons c w₂' =>
    have hc : c ≠ 'z' := h c (by rw [hw]; exact List.mem_append_right _ (by simp))
    rw [List.cons_append]
    exact matchAt_head_ne_z hc

theorem reSub_skipName {target : String} {n tx : List Char}
    (hq : ∀ c ∈ n, c ≠ '"') (hs : ∀ c ∈ n, c ≠ ' ') :
    reSub target (n ++ '"' :: tx) = n ++ reSub target ('"' :: tx) := by
  apply reSub_append_of_noMatch
  intro w₁ w₂ hw hne
  exact matchAt_inName hne
    (fun c hc => hq c (by rw [hw]; exact List.mem_append_right _ hc))
    (fun c hc => hs c (by rw [hw]; exact List.mem_append_right _ hc))

theorem reSub_skipBody {target : String} {b : List Char} (tx : List Char)
    (hq : ∀ c ∈ b, c ≠ '"') :
    reSub target (b ++ '\x7d' :: tx) = b ++ reSub target ('\x7d' :: tx) := by
  apply reSub_append_of_noMatch
  intro w₁ w₂ hw hne
  exact matchAt_inBody hne
    (fun c hc => hq c (by rw [hw]; exact List.mem_append_right _ hc))

theorem reSub_skipSep {target : String} {s v : List Char}
    (hq : ∀ c ∈ s, c ≠ '"') :
    reSub target (s ++ ('z' :: 'o' :: 'n' :: 'e' :: ' ' :: '"' :: v)) =
      s ++ reSub target ('z' :: 'o' :: 'n' :: 'e' :: ' ' :: '"' :: v) := by
  apply reSub_append_of_noMatch
  intro w₁ w₂ hw hne
  exact matchAt_inSep hne
    (fun c hc => hq c (by rw [hw]; exact List.mem_append_right _ hc))

theorem reSub_noQuoteAll {target : String} {u : List Char}
    (hq : ∀ c ∈ u, c ≠ '"') : reSub target u = u := by
  have h := reSub_append_of_noMatch target u []
    (by
      intro w₁ w₂ hw hne
      rw [List.append_nil]
      exact matchAt_noQuote
        fun c hc => hq c (by rw [hw]; exact List.mem_append_right _ hc))
  simpa [reSub_nil] using h

theorem stanzaChars_append {z : Stanza} {R : List Char} :
    stanzaChars z ++ R =
      'z' :: 'o' :: 'n' :: 'e' :: ' ' :: '"' ::
        (z.name.data ++ ('"' :: ' ' :: 'I' :: 'N' :: ' ' :: '\x7b' ::
          (z.body.data ++ ('\x7d' :: ';' :: R)))) := by
  simp [stanzaChars, List.cons_append, List.append_assoc]

theorem stanzaOk_spec {z : Stanza} (h : stanzaOk z = true) :
    (∀ c ∈ z.name.data, c ≠ '"') ∧ (∀ c ∈ z.name.data, c ≠ ' ') ∧
      (∀ c ∈ z.body.data, c ≠ '"') ∧ (∀ c ∈ z.body.data, c ≠ '\x7d') ∧
      z.body.data ≠ [] := by
  simp only [stanzaOk, Bool.and_eq_true, Bool.not_eq_true'] at h
  obtain ⟨⟨⟨⟨h1, h2⟩, h3⟩, h4⟩, h5⟩ := h
  refine ⟨not_contains_spec h1, not_contains_spec h2, not_contains_spec h3,
    not_contains_spec h4, ?_⟩
  intro hnil
  rw [hnil] at h5
  simp at h5

theorem reSub_stanza_hit {target : String} {z : Stanza} {rest : List Char}
    (htgt : targetOk target = true) (hz : stanzaOk z = true)
    (hrest : QuoteBlocked rest)
    (hm : listCharMatch target.data z.name.data = true) :
    reSub target (stanzaChars z ++ rest) = reSub target rest := by
  obtain ⟨h1, h2, h3, h4, h5⟩ := stanzaOk_spec hz
  have h0 : matchAt target (stanzaChars z ++ rest) = some rest := by
    rw [matchAt_stanza htgt h1 h5 h4 h3 hrest]
    simp [hm]
  rw [stanzaChars_append] at h0
  rw [stanzaChars_append]
  exact reSub_cons_match h0

theorem reSub_stanza_miss {target : String} {z : Stanza} {rest : List Char}
    (htgt : targetOk target = true) (hz : stanzaOk z = true)
    (hrest : QuoteBlocked rest)
    (hm : listCharMatch target.data z.name.data = false) :
    reSub target (stanzaChars z ++ rest) =
      stanzaChars z ++ reSub target rest := by
  obtain ⟨h1, h2, h3, h4, h5⟩ := stanzaOk_spec hz
  have h0 : matchAt target (stanzaChars z ++ rest) = none := by
    rw [matchAt_stanza htgt h1 h5 h4 h3 hrest]
    simp [hm]
  rw [stanzaChars_append] at h0
  have e1 : reSub target ('\x7d' :: ';' :: rest) =
      '\x7d' :: ';' :: reSub target rest := by
    have h := reSub_skipBlock target ['\x7d', ';'] rest (by decide)
    simpa using h
  have e2 : reSub target (z.body.data ++ ('\x7d' :: ';' :: rest)) =
      z.body.data ++ ('\x7d' :: ';' :: reSub target rest) := by
    rw [reSub_skipBody (';' :: rest) h3, e1]
  have e3 : reSub target ('"' :: ' ' :: 'I' :: 'N' :: ' ' :: '\x7b' ::
      (z.body.data ++ ('\x7d' :: ';' :: rest))) =
      '"' :: ' ' :: 'I' :: 'N' :: ' ' :: '\x7b' ::
        (z.body.data ++ ('\x7d' :: ';' :: reSub target rest)) := by
    have h := reSub_skipBlock target ['"', ' ', 'I', 'N', ' ', '\x7b']
      (z.body.data ++ ('\x7d' :: ';' :: rest)) (by decide)
    simp only [List.cons_append, List.nil_append] at h
    rw [h, e2]
  have e4 : reSub target (z.name.data ++
      ('"' :: ' ' :: 'I' :: 'N' :: ' ' :: '\x7b' ::
        (z.body.data ++ ('\x7d' :: ';' :: rest)))) =
      z.name.data ++ ('"' :: ' ' :: 'I' :: 'N' :: ' ' :: '\x7b' ::
        (z.body.data ++ ('\x7d' :: ';' :: reSub target rest))) := by
    rw [reSub_skipName h1 h2, e3]
  have e5 : reSub target ('o' :: 'n' :: 'e' :: ' ' :: '"' ::
      (z.name.data ++ ('"' :: ' ' :: 'I' :: 'N' :: ' ' :: '\x7b' ::
        (z.body.data ++ ('\x7d' :: ';' :: rest))))) =
      'o' :: 'n' :: 'e' :: ' ' :: '"' ::
        (z.name.data ++ ('"' :: ' ' :: 'I' :: 'N' :: ' ' :: '\x7b' ::
          (z.body.data ++ ('\x7d' :: ';' :: reSub target rest)))) := by
    have h := reSub_skipBlock target ['o', 'n', 'e', ' ', '"']
      (z.name.data ++ ('"' :: ' ' :: 'I' :: 'N' :: ' ' :: '\x7b' ::
        (z.body.data ++ ('\x7d' :: ';' :: rest)))) (by decide)
    simp only [List.cons_append, List.nil_append] at h
    rw [h, e4]
  simp only [stanzaChars_append]
  rw [reSub_cons_nomatch h0, e5]

theorem quoteBlocked_renderItems :
    ∀ (items : List (String × Stanza)) (t : String),
      (∀ p ∈ items, sepOk p.1 = true) → trailingOk t = true →
      QuoteBlocked (renderItems items t) := by
  intro items t hpairs ht
  cases items with
  | nil =>
    left
    simp only [trailingOk, Bool.not_eq_true'] at ht
    exact not_contains_spec ht
  | cons p rest =>
    obtain ⟨s, z⟩ := p
    have hs := hpairs (s, z) (by simp)
    simp only [sepOk, Bool.and_eq_true, Bool.not_eq_true'] at hs
    obtain ⟨hq, hnl⟩ := hs
    have hmem : '\n' ∈ s.data := List.mem_of_elem_eq_true hnl
    obtain ⟨u, v, huv⟩ := List.append_of_mem hmem
    right
    refine ⟨u, v ++ (stanzaChars z ++ renderItems rest t), ?_, ?_⟩
    · simp only [renderItems]
      rw [huv]
      simp [List.append_assoc]
    · intro c hc
      exact not_contains_spec hq c (by rw [huv]; exact List.mem_append_left _ hc)

/-- The heart of the `delete_zone` analysis: on a configuration of simple
stanzas, `re.sub` with the interpolated pattern removes exactly the stanzas
whose names match the (regex-read) target, leaving all other characters
intact. -/
theorem reSub_renderItems {target : String} (htgt : targetOk target = true) :
    ∀ (items : List (String × Stanza)) (t : String),
      (∀ p ∈ items, sepOk p.1 = true ∧ stanzaOk p.2 = true) →
      trailingOk t = true →
      reSub target (renderItems items t) = deleteRender target items t := by
  intro items
  induction items with
  | nil =>
    intro t _ ht
    simp only [renderItems, deleteRender]
    simp only [trailingOk, Bool.not_eq_true'] at ht
    exact reSub_noQuoteAll (not_contains_spec ht)
  | cons p rest ih =>
    obtain ⟨s, z⟩ := p
    intro t hok ht
    have hsz := hok (s, z) (by simp)
    have hrest_ok : ∀ q ∈ rest, sepOk q.1 = true ∧ stanzaOk q.2 = true :=
      fun q hq => hok q (by simp [hq])
    have hQB : QuoteBlocked (renderItems rest t) :=
      quoteBlocked_renderItems rest t (fun q hq => (hrest_ok q hq).1) ht
    have hsq : ∀ c ∈ s.data, c ≠ '"' := by
      have := hsz.1
      simp only [sepOk, Bool.and_eq_true, Bool.not_eq_true'] at this
      exact not_contains_spec this.1
    have hihr := ih t hrest_ok ht
    simp only [renderItems, deleteRender]
    by_cases hm : listCharMatch target.data z.name.data = true
    · rw [if_pos hm]
      have hin : reSub target (stanzaChars z ++ renderItems rest t) =
          reSub target (renderItems rest t) :=
        reSub_stanza_hit htgt hsz.2 hQB hm
      simp only [stanzaChars_append] at hin
      simp only [stanzaChars_append]
      rw [reSub_skipSep hsq, hin, hihr]
    · rw [if_neg hm]
      have hin : reSub target (stanzaChars z ++ renderItems rest t) =
          stanzaChars z ++ reSub target (renderItems rest t) :=
        reSub_stanza_miss htgt hsz.2 hQB (by simpa using hm)
      simp only [stanzaChars_append] at hin
      simp only [stanzaChars_append]
      rw [reSub_skipSep hsq, hin, hihr]

/-! ## Claim theorems -/

theorem foldl_A_eq (rs : List Record) (acc : String) :
    rs.foldl (fun a r => if r.type = "A" then a ++ aLine r else a) acc =
      acc ++ strConcat ((rs.filter fun r => decide (r.type = "A")).map aLine)
    := by
  induction rs generalizing acc with
  | nil => simp [strConcat, String.append_empty]
  | cons r rs ih =>
    by_cases h : r.type = "A" <;>
      simp [List.foldl, List.filter_cons, h, ih, strConcat,
        String.append_assoc]

theorem foldl_CNAME_eq (rs : List Record) (acc : String) :
    rs.foldl (fun a r => if r.type = "CNAME" then a ++ cnameLine r else a)
        acc =
      acc ++ strConcat
        ((rs.filter fun r => decide (r.type = "CNAME")).map cnameLine) := by
  induction rs generalizing acc with
  | nil => simp [strConcat, String.append_empty]
  | cons r rs ih =>
    by_cases h : r.type = "CNAME" <;>
      simp [List.foldl, List.filter_cons, h, ih, strConcat,
        String.append_assoc]

theorem recordLines_eq (rs : List Record) :
    recordLines rs =
      strConcat ((rs.filter fun r => decide (r.type = "A")).map aLine) ++
        strConcat
          ((rs.filter fun r => decide (r.type = "CNAME")).map cnameLine) := by
  rw [recordLines, foldl_A_eq, foldl_CNAME_eq, String.empty_append,
    String.empty_append]

/-- C4: for every CNAME record whose value contains a dot and does not end
with one, the rendered zone line carries the value with exactly one trailing
dot appended; a value containing no dot is rendered unchanged. -/
theorem cname_value_dot_handling (name v : String) :
    (strContainsChar v '.' = true → strEndsWith v "." = false →
      cnameLine ⟨name, "CNAME", v⟩ =
        name ++ "    IN    CNAME    " ++ (v ++ ".") ++ "\n") ∧
    (strContainsChar v '.' = false →
      cnameLine ⟨name, "CNAME", v⟩ =
        name ++ "    IN    CNAME    " ++ v ++ "\n") := by
  constructor
  · intro h1 h2
    simp [cnameLine, cnameValue, h1, h2]
  · intro h1
    simp [cnameLine, cnameValue, h1]

theorem cname_value_dot_handling_witness :
    cnameLine ⟨"webmail", "CNAME", "mail.example.com"⟩ =
        "webmail" ++ "    IN    CNAME    " ++ ("mail.example.com" ++ ".")
          ++ "\n" ∧
      cnameLine ⟨"ftp", "CNAME", "www"⟩ =
        "ftp" ++ "    IN    CNAME    " ++ "www" ++ "\n" :=
  ⟨(cname_value_dot_handling "webmail" "mail.example.com").1
      (by decide) (by decide),
    (cname_value_dot_handling "ftp" "www").2 (by decide)⟩

/-- C5: the rendered zone file lists all A records first, in input order,
then all CNAME records in input order; with `@` kept literally for the apex;
and for a list of only A records, exactly one rendered line per record in
input order. -/
theorem record_rendering_order (rs : List Record) :
    (recordLines rs =
      strConcat ((rs.filter fun r => decide (r.type = "A")).map aLine) ++
        strConcat
          ((rs.filter fun r => decide (r.type = "CNAME")).map cnameLine)) ∧
    ((∀ r ∈ rs, r.type = "A") →
      recordLines rs = strConcat (rs.map aLine)) ∧
    (∀ v : String, aLine ⟨"@", "A", v⟩ = "@    IN    A    " ++ v ++ "\n") := by
  refine ⟨recordLines_eq rs, ?_, fun v => by simp [aLine]⟩
  intro hall
  have hA : rs.filter (fun r => decide (r.type = "A")) = rs := by
    apply List.filter_eq_self.mpr
    intro r hr
    simp [hall r hr]
  have hC : rs.filter (fun r => decide (r.type = "CNAME")) = [] := by
    apply List.filter_eq_nil_iff.mpr
    intro r hr
    simp [hall r hr]
  rw [recordLines_eq, hA, hC]
  simp [strConcat, String.append_empty]

theorem record_rendering_order_witness :
    recordLines [⟨"@", "A", "192.168.1.10"⟩, ⟨"www", "A", "192.168.1.10"⟩] =
      strConcat ([⟨"@", "A", "192.168.1.10"⟩,
        (⟨"www", "A", "192.168.1.10"⟩ : Record)].map aLine) :=
  (record_rendering_order _).2.1 (by decide)

/-- C10: records whose type is neither `A` nor `CNAME` contribute no line to
the rendered zone file: deleting such a record from the input leaves the
render unchanged (they are silently ignored, never rejected). -/
theorem non_a_cname_ignored (pre post : List Record) (r : Record)
    (hA : r.type ≠ "A") (hC : r.type ≠ "CNAME") :
    recordLines (pre ++ r :: post) = recordLines (pre ++ post) := by
  rw [recordLines_eq, recordLines_eq]
  simp [List.filter_append, List.filter_cons, hA, hC]

theorem non_a_cname_ignored_witness :
    recordLines ([⟨"@", "A", "1.2.3.4"⟩] ++ ⟨"x", "TXT", "v"⟩ ::
        [⟨"w", "CNAME", "y"⟩]) =
      recordLines ([⟨"@", "A", "1.2.3.4"⟩] ++ [⟨"w", "CNAME", "y"⟩]) :=
  non_a_cname_ignored _ _ _ (by decide) (by decide)

theorem splitDots_ne_nil : ∀ cs : List Char, splitDots cs ≠ [] := by
  intro cs
  cases cs with
  | nil => simp [splitDots]
  | cons c cs' =>
    simp only [splitDots]
    cases splitDots cs' with
    | nil => simp
    | cons r rs =>
      by_cases h : c = '.' <;> simp [h]

theorem splitDots_noDot {a : List Char} (h : ∀ c ∈ a, c ≠ '.') :
    splitDots a = [a] := by
  induction a with
  | nil => rfl
  | cons c a' ih =>
    have hc : c ≠ '.' := h c (by simp)
    have ih' := ih fun d hd => h d (by simp [hd])
    simp [splitDots, ih', hc]

theorem splitDots_append {a rest : List Char} (h : ∀ c ∈ a, c ≠ '.') :
    splitDots (a ++ '.' :: rest) = a :: splitDots rest := by
  induction a with
  | nil =>
    simp only [List.nil_append, splitDots]
    cases hs : splitDots rest with
    | nil => exact absurd hs (splitDots_ne_nil rest)
    | cons r rs => simp
  | cons c a' ih =>
    have hc : c ≠ '.' := h c (by simp)
    have ih' := ih fun d hd => h d (by simp [hd])
    simp [splitDots, ih', hc]

/-- C6: the reverse zone name is the first three octets in reversed order
with `.in-addr.arpa` appended. -/
theorem reverse_zone_derivation (o1 o2 o3 o4 : String)
    (h1 : ∀ c ∈ o1.data, c ≠ '.') (h2 : ∀ c ∈ o2.data, c ≠ '.')
    (h3 : ∀ c ∈ o3.data, c ≠ '.') :
    reverseZone (o1 ++ "." ++ o2 ++ "." ++ o3 ++ "." ++ o4) =
      some (o3 ++ "." ++ o2 ++ "." ++ o1 ++ ".in-addr.arpa") := by
  have hdata : (o1 ++ "." ++ o2 ++ "." ++ o3 ++ "." ++ o4).data =
      o1.data ++ '.' :: (o2.data ++ '.' :: (o3.data ++ '.' :: o4.data)) := by
    simp [String.data_append]
  rw [reverseZone, hdata, splitDots_append h1, splitDots_append h2,
    splitDots_append h3]

theorem reverse_zone_derivation_witness :
    reverseZone "192.168.1.0" = some "1.168.192.in-addr.arpa" :=
  reverse_zone_derivation "192" "168" "1" "0"
    (by decide) (by decide) (by decide)

theorem splitDots_length_two :
    ∀ (cs : List Char), '.' ∈ cs → 2 ≤ (splitDots cs).length := by
  intro cs
  induction cs with
  | nil => simp
  | cons c cs' ih =>
    intro hmem
    simp only [splitDots]
    cases hs : splitDots cs' with
    | nil => exact absurd hs (splitDots_ne_nil cs')
    | cons r rs =>
      by_cases hc : c = '.'
      · simp [hc]
      · have hmem' : '.' ∈ cs' := by
          rcases List.mem_cons.mp hmem with h | h
          · exact absurd h.symm hc
          · exact h
        have := ih hmem'
        rw [hs] at this
        simp only [hc, if_false, ite_false, List.length_cons] at this ⊢
        omega

theorem splitDots_getLastD {u v : List Char} (hv : ∀ c ∈ v, c ≠ '.') :
    (splitDots (u ++ '.' :: v)).getLastD [] = v := by
  induction u with
  | nil =>
    rw [List.nil_append, show ('.' :: v) = ([] : List Char) ++ '.' :: v from
      rfl, splitDots_append (by simp), splitDots_noDot hv]
    rfl
  | cons c u' ih =>
    simp only [List.cons_append, splitDots]
    cases hs : splitDots (u' ++ '.' :: v) with
    | nil => exact absurd hs (splitDots_ne_nil _)
    | cons r rs =>
      rw [hs] at ih
      by_cases hc : c = '.'
      · simpa [hc] using ih
      · simp only [hc, if_false, ite_false]
        cases rs with
        | nil =>
          exfalso
          have h2 := splitDots_length_two (u' ++ '.' :: v) (by simp)
          rw [hs] at h2
          simp at h2
        | cons r2 rs' =>
          simp [List.getLastD_cons] at ih ⊢
          exact ih

theorem lastOctet_append {u oct : String} (hoct : ∀ c ∈ oct.data, c ≠ '.') :
    lastOctet (u ++ "." ++ oct) = oct := by
  have hdata : (u ++ "." ++ oct).data = u.data ++ '.' :: oct.data := by
    simp [String.data_append]
  rw [lastOctet, hdata, splitDots_getLastD hoct]

theorem foldl_ptr_eq (rs : List PtrRecord) (acc : String) :
    rs.foldl (fun a r => a ++ ptrLine r) acc =
      acc ++ strConcat (rs.map ptrLine) := by
  induction rs generalizing acc with
  | nil => simp [strConcat, String.append_empty]
  | cons r rs ih => simp [List.foldl, ih, strConcat, String.append_assoc]

/-- C7: each rendered PTR line is keyed on the last octet of the record's ip
and maps it to the record's hostname, and records are rendered in input
order. -/
theorem ptr_record_rendering (u oct host : String) (rs : List PtrRecord)
    (hoct : ∀ c ∈ oct.data, c ≠ '.') :
    ptrLine ⟨u ++ "." ++ oct, host⟩ =
        oct ++ "    IN    PTR    " ++ host ++ "\n" ∧
      ptrLines rs = strConcat (rs.map ptrLine) := by
  constructor
  · rw [ptrLine, lastOctet_append hoct]
  · rw [ptrLines, foldl_ptr_eq, String.empty_append]

theorem ptr_record_rendering_witness :
    ptrLine ⟨"192.168.1.50", "host1.example.com."⟩ =
      "50" ++ "    IN    PTR    " ++ "host1.example.com." ++ "\n" :=
  (ptr_record_rendering "192.168.1" "50" "host1.example.com." []
    (by decide)).1

theorem digitChar_ne_newline (n : Nat) : Nat.digitChar n ≠ '\n' := by
  by_cases h : n < 16
  · interval_cases n <;> decide
  · have h0 : ¬ n = 0 := by omega
    have h1 : ¬ n = 1 := by omega
    have h2 : ¬ n = 2 := by omega
    have h3 : ¬ n = 3 := by omega
    have h4 : ¬ n = 4 := by omega
    have h5 : ¬ n = 5 := by omega
    have h6 : ¬ n = 6 := by omega
    have h7 : ¬ n = 7 := by omega
    have h8 : ¬ n = 8 := by omega
    have h9 : ¬ n = 9 := by omega
    have h10 : ¬ n = 10 := by omega
    have h11 : ¬ n = 11 := by omega
    have h12 : ¬ n = 12 := by omega
    have h13 : ¬ n = 13 := by omega
    have h14 : ¬ n = 14 := by omega
    have h15 : ¬ n = 15 := by omega
    simp only [Nat.digitChar, if_neg h0, if_neg h1, if_neg h2, if_neg h3,
      if_neg h4, if_neg h5, if_neg h6, if_neg h7, if_neg h8, if_neg h9,
      if_neg h10, if_neg h11, if_neg h12, if_neg h13, if_neg h14, if_neg h15]
    decide

theorem toDigitsCore_ne_newline :
    ∀ (f n : Nat) (acc : List Char), (∀ c ∈ acc, c ≠ '\n') →
      ∀ c ∈ Nat.toDigitsCore 10 f n acc, c ≠ '\n' := by
  intro f
  induction f with
  | zero =>
    intro n acc hacc
    simpa [Nat.toDigitsCore] using hacc
  | succ f ih =>
    intro n acc hacc c hc
    simp only [Nat.toDigitsCore] at hc
    split at hc
    · rcases List.mem_cons.mp hc with h | h
      · rw [h]; exact digitChar_ne_newline _
      · exact hacc c h
    · refine ih (n / 10) (Nat.digitChar (n % 10) :: acc) ?_ c hc
      intro d hd
      rcases List.mem_cons.mp hd with h | h
      · rw [h]; exact digitChar_ne_newline _
      · exact hacc d h

theorem natRepr_ne_newline (n : Nat) :
    ∀ c ∈ (toString n).data, c ≠ '\n' := by
  intro c hc
  have : (toString n).data = Nat.toDigitsCore 10 (n + 1) n [] := rfl
  rw [this] at hc
  exact toDigitsCore_ne_newline (n + 1) n [] (by simp) c hc

theorem splitNewlines_append {a rest : List Char} (h : ∀ c ∈ a, c ≠ '\n') :
    splitNewlines (a ++ '\n' :: rest) = a :: splitNewlines rest := by
  induction a with
  | nil =>
    simp only [List.nil_append, splitNewlines]
    cases hs : splitNewlines rest with
    | nil =>
      exfalso
      induction rest with
      | nil => simp [splitNewlines] at hs
      | cons r rs ihr =>
        simp only [splitNewlines] at hs
        cases hs2 : splitNewlines rs with
        | nil => exact ihr hs2
        | cons q qs =>
          rw [hs2] at hs
          by_cases hr : r = '\n' <;> simp [hr] at hs
    | cons r rs => simp
  | cons c a' ih =>
    have hc : c ≠ '\n' := h c (by simp)
    have ih' := ih fun d hd => h d (by simp [hd])
    simp [splitNewlines, ih', hc]

theorem splitNewlines_noNewline {a : List Char} (h : ∀ c ∈ a, c ≠ '\n') :
    splitNewlines a = [a] := by
  induction a with
  | nil => rfl
  | cons c a' ih =>
    have hc : c ≠ '\n' := h c (by simp)
    have ih' := ih fun d hd => h d (by simp [hd])
    simp [splitNewlines, ih', hc]

/-- C9: the rendered dnsmasq configuration is exactly two lines, one naming
the upstream server from the options and one naming the cache size. -/
theorem dnsmasq_two_line_conf (o : DnsmasqOptions)
    (h : ∀ c ∈ o.upstream_dns.data, c ≠ '\n') :
    dnsmasqConf o =
        "server=" ++ o.upstream_dns ++ "\n" ++
          ("cache-size=" ++ toString (o.cache_size.getD 0)) ∧
      splitNewlines (dnsmasqConf o).data =
        [("server=" ++ o.upstream_dns).data,
          ("cache-size=" ++ toString (o.cache_size.getD 0)).data] := by
  constructor
  · rw [dnsmasqConf, String.append_assoc]
  · have hdata : (dnsmasqConf o).data =
        ("server=" ++ o.upstream_dns).data ++ '\n' ::
          ("cache-size=" ++ toString (o.cache_size.getD 0)).data := by
      simp [dnsmasqConf, String.data_append]
    have hsrv : ∀ c ∈ ("server=" : String).data, c ≠ '\n' := by decide
    have hcache : ∀ c ∈ ("cache-size=" : String).data, c ≠ '\n' := by decide
    have hline1 : ∀ c ∈ ("server=" ++ o.upstream_dns).data, c ≠ '\n' := by
      intro c hc
      rw [String.data_append] at hc
      rcases List.mem_append.mp hc with hc | hc
      · exact hsrv c hc
      · exact h c hc
    have hline2 :
        ∀ c ∈ ("cache-size=" ++ toString (o.cache_size.getD 0)).data,
          c ≠ '\n' := by
      intro c hc
      rw [String.data_append] at hc
      rcases List.mem_append.mp hc with hc | hc
      · exact hcache c hc
      · exact natRepr_ne_newline _ c hc
    rw [hdata, splitNewlines_append hline1, splitNewlines_noNewline hline2]

theorem dnsmasq_two_line_conf_witness :
    splitNewlines (dnsmasqConf ⟨"8.8.8.8", some 150⟩).data =
      [("server=" ++ "8.8.8.8").data,
        ("cache-size=" ++ toString ((some 150 : Option Nat).getD 0)).data] :=
  (dnsmasq_two_line_conf ⟨"8.8.8.8", some 150⟩ (by decide)).2

theorem listPrefixOf_append_self :
    ∀ (b x : List Char), listPrefixOf b (b ++ x) = true := by
  intro b x
  induction b with
  | nil => rfl
  | cons c b' ih => simp [listPrefixOf, ih]

theorem listInfixOf_append :
    ∀ (pre b suf : List Char), listInfixOf b (pre ++ (b ++ suf)) = true := by
  intro pre b suf
  induction pre with
  | nil =>
    cases hb : b ++ suf with
    | nil =>
      have hb2 := List.append_eq_nil.mp hb
      simp [listInfixOf, hb, hb2.1, listPrefixOf]
    | cons c cs =>
      simp only [List.nil_append, hb, listInfixOf]
      rw [← hb, listPrefixOf_append_self]
      simp
  | cons c pre' ih =>
    simp [listInfixOf, ih]

theorem restart_not_mem_install (w : CommandOracle) :
    Action.exec "systemctl restart named" ∉ installNamed w := by
  rw [installNamed]
  split <;> decide

theorem append_ne_restart (pre p : String) (c : Char) (cs : List Char)
    (hpre : pre.data = c :: cs) (hc : c ≠ 's') :
    "systemctl restart named" ≠ pre ++ p := by
  intro he
  have hdata := congrArg String.data he
  rw [String.data_append, hpre, List.cons_append] at hdata
  have hlhs : ("systemctl restart named" : String).data =
      's' :: "ystemctl restart named".data := rfl
  rw [hlhs] at hdata
  injection hdata with h1 _
  exact hc h1.symm

theorem restart_not_mem_addZoneAbort (zoneName zoneType : String)
    (serial : Nat) (records : List Record) :
    Action.exec "systemctl restart named" ∉
      ([.writeFile ("/var/named/db." ++ zoneName)
          (zoneContent zoneName serial records),
        .exec ("chown root:named " ++ ("/var/named/db." ++ zoneName)),
        .exec ("chmod 640 " ++ ("/var/named/db." ++ zoneName)),
        .exec ("restorecon -v " ++ ("/var/named/db." ++ zoneName)),
        .appendFile "/etc/named.conf" (zoneStanzaAppended zoneName zoneType),
        .exec "named-checkconf"] : List Action) := by
  intro hmem
  simp only [List.mem_cons, List.not_mem_nil, or_false] at hmem
  rcases hmem with h | h | h | h | h | h
  · exact Action.noConfusion h
  · injection h with h'
    exact append_ne_restart "chown root:named " _ 'c'
      "hown root:named ".data rfl (by decide) h'
  · injection h with h'
    exact append_ne_restart "chmod 640 " _ 'c'
      "hmod 640 ".data rfl (by decide) h'
  · injection h with h'
    exact append_ne_restart "restorecon -v " _ 'r'
      "estorecon -v ".data rfl (by decide) h'
  · exact Action.noConfusion h
  · injection h with h'
    exact absurd h' (by decide)

theorem restart_not_mem_addZoneAbort2 (zoneName zoneType : String)
    (serial : Nat) (records : List Record) :
    Action.exec "systemctl restart named" ∉
      (([.writeFile ("/var/named/db." ++ zoneName)
          (zoneContent zoneName serial records),
        .exec ("chown root:named " ++ ("/var/named/db." ++ zoneName)),
        .exec ("chmod 640 " ++ ("/var/named/db." ++ zoneName)),
        .exec ("restorecon -v " ++ ("/var/named/db." ++ zoneName)),
        .appendFile "/etc/named.conf" (zoneStanzaAppended zoneName zoneType),
        .exec "named-checkconf"] : List Action) ++
        [.exec ("named-checkzone " ++ zoneName ++ " "
          ++ ("/var/named/db." ++ zoneName))]) := by
  intro hmem
  rcases List.mem_append.mp hmem with h | h
  · exact restart_not_mem_addZoneAbort zoneName zoneType serial records h
  · simp only [List.mem_singleton] at h
    injection h with h'
    exact append_ne_restart "named-checkzone "
      (zoneName ++ (" " ++ ("/var/named/db." ++ zoneName))) 'n'
      "amed-checkzone ".data rfl (by decide)
      (by rw [h']; simp [String.append_assoc])

/-- C2: when the main-config checker reports non-empty stderr, or the
zone-file checker reports non-empty stderr lacking `OK`, the operation raises
its configuration error and the service-restart command is never issued. -/
theorem checker_error_aborts_before_restart (w : CommandOracle)
    (fw zoneName zoneType : String) (serial : Nat) (records : List Record) :
    ((w.run "named-checkconf").2 ≠ "" →
      (configureNamed w fw).2.isSome = true ∧
        Action.exec "systemctl restart named" ∉ (configureNamed w fw).1) ∧
    ((w.run "named-checkconf").2 ≠ "" ∨
        ((w.run ("named-checkzone " ++ zoneName ++ " "
            ++ ("/var/named/db." ++ zoneName))).2 ≠ "" ∧
          strContainsStr (w.run ("named-checkzone " ++ zoneName ++ " "
            ++ ("/var/named/db." ++ zoneName))).2 "OK" = false) →
      (addZone w zoneName serial zoneType records).2.isSome = true ∧
        Action.exec "systemctl restart named" ∉
          (addZone w zoneName serial zoneType records).1) := by
  constructor
  · intro h
    rw [configureNamed, configureNamedRaw]
    simp only [if_pos h]
    refine ⟨rfl, ?_⟩
    intro hmem
    rcases List.mem_append.mp hmem with hmem | hmem
    · exact restart_not_mem_install w hmem
    · simp at hmem
  · intro h
    rw [addZone, addZoneRaw]
    rcases h with h | ⟨h1, h2⟩
    · simp only [if_pos h]
      exact ⟨rfl, restart_not_mem_addZoneAbort zoneName zoneType serial
        records⟩
    · by_cases hconf : (w.run "named-checkconf").2 ≠ ""
      · simp only [if_pos hconf]
        exact ⟨rfl, restart_not_mem_addZoneAbort zoneName zoneType serial
          records⟩
      · simp only [if_neg hconf]
        have hcond : (w.run ("named-checkzone " ++ zoneName ++ " "
            ++ ("/var/named/db." ++ zoneName))).2 ≠ "" ∧
            ¬ strContainsStr (w.run ("named-checkzone " ++ zoneName ++ " "
              ++ ("/var/named/db." ++ zoneName))).2 "OK" = true :=
          ⟨h1, by rw [h2]; exact Bool.noConfusion⟩
        simp only [if_pos hcond]
        exact ⟨rfl, restart_not_mem_addZoneAbort2 zoneName zoneType serial
          records⟩

theorem checker_error_aborts_before_restart_witness :
    ((oracleConfFail.run "named-checkconf").2 ≠ "" ∧
      (configureNamed oracleConfFail "8.8.8.8").2.isSome = true ∧
        Action.exec "systemctl restart named" ∉
          (configureNamed oracleConfFail "8.8.8.8").1) ∧
    (((oracleZoneFail.run ("named-checkzone " ++ "z" ++ " "
          ++ ("/var/named/db." ++ "z"))).2 ≠ "" ∧
        strContainsStr (oracleZoneFail.run ("named-checkzone " ++ "z" ++ " "
          ++ ("/var/named/db." ++ "z"))).2 "OK" = false) ∧
      (addZone oracleZoneFail "z" 0 "master" []).2.isSome = true ∧
        Action.exec "systemctl restart named" ∉
          (addZone oracleZoneFail "z" 0 "master" []).1) :=
  ⟨⟨by decide,
    (checker_error_aborts_before_restart oracleConfFail "8.8.8.8" "z"
      "master" 0 []).1 (by decide)⟩,
   ⟨by decide,
    (checker_error_aborts_before_restart oracleZoneFail "8.8.8.8" "z"
      "master" 0 []).2 (Or.inr (by decide))⟩⟩

/-- C3: the main-configuration content written by `configure` is a pure
function of the options: two calls with the same forwarder write the same
single content, whatever the remote answered each time, and the second call
issues the backup copy again (overwriting the first backup). -/
theorem configure_idempotent_render (w₁ w₂ : CommandOracle) (fw : String) :
    confWrites (configureNamed w₁ fw).1 = [namedConfContent fw] ∧
      confWrites (configureNamed w₂ fw).1 =
        confWrites (configureNamed w₁ fw).1 ∧
      Action.exec "cp /etc/named.conf /etc/named.conf.bak 2>/dev/null || true"
        ∈ (configureNamed w₂ fw).1 := by
  have hshape : ∀ w : CommandOracle, ∃ tail : List Action,
      (configureNamed w fw).1 = installNamed w ++
        (Action.exec
            "cp /etc/named.conf /etc/named.conf.bak 2>/dev/null || true" ::
          Action.writeFile "/etc/named.conf" (namedConfContent fw) ::
          Action.exec "named-checkconf" :: tail) ∧
        confWrites tail = [] := by
    intro w
    rw [configureNamed]
    rcases hh : configureNamedRaw w fw with ⟨acts, m?⟩
    rw [configureNamedRaw] at hh
    by_cases hc : (w.run "named-checkconf").2 ≠ ""
    · rw [if_pos hc] at hh
      injection hh with ha hm
      cases m? with
      | none => exact absurd hm.symm (by simp)
      | some m =>
        refine ⟨[], ?_, rfl⟩
        simp only []
        rw [← ha]
    · rw [if_neg hc] at hh
      have htail : acts = installNamed w ++
          [Action.exec
            "cp /etc/named.conf /etc/named.conf.bak 2>/dev/null || true",
          Action.writeFile "/etc/named.conf" (namedConfContent fw),
          Action.exec "named-checkconf"] ++
          [Action.exec "chown root:named /etc/named.conf",
          Action.exec "restorecon -v /etc/named.conf",
          Action.exec "chmod 640 /etc/named.conf",
          Action.exec "systemctl restart named",
          Action.exec "systemctl is-active named"] := by
        split at hh <;> (injection hh with ha hm; exact ha.symm)
      refine ⟨[Action.exec "chown root:named /etc/named.conf",
        Action.exec "restorecon -v /etc/named.conf",
        Action.exec "chmod 640 /etc/named.conf",
        Action.exec "systemctl restart named",
        Action.exec "systemctl is-active named"], ?_, rfl⟩
      have hfst : (match (acts, m?) with
          | (acts, some m) =>
            (acts, some (DNSConfigError.mk ("Failed to configure BIND: "
              ++ m)))
          | (acts, none) => (acts, none) : List Action × _).1 = acts := by
        cases m? <;> rfl
      rw [hfst, htail]
      simp [List.append_assoc]
  obtain ⟨t₁, hs₁, ht₁⟩ := hshape w₁
  obtain ⟨t₂, hs₂, ht₂⟩ := hshape w₂
  have hinst : ∀ w : CommandOracle, confWrites (installNamed w) = [] := by
    intro w
    rw [installNamed]
    split <;> rfl
  have hw : ∀ (w : CommandOracle) (t : List Action), confWrites t = [] →
      confWrites (installNamed w ++
        (Action.exec
            "cp /etc/named.conf /etc/named.conf.bak 2>/dev/null || true" ::
          Action.writeFile "/etc/named.conf" (namedConfContent fw) ::
          Action.exec "named-checkconf" :: t)) = [namedConfContent fw] := by
    intro w t ht
    simp only [confWrites] at hinst ht ⊢
    rw [List.filterMap_append, hinst w, List.nil_append]
    simp only [List.filterMap]
    rw [ht]
    simp
  refine ⟨?_, ?_, ?_⟩
  · rw [hs₁]
    exact hw w₁ t₁ ht₁
  · rw [hs₁, hs₂, hw w₁ t₁ ht₁, hw w₂ t₂ ht₂]
  · rw [hs₂]
    exact List.mem_append_right _ (by simp)

/-- C8: every failure is funneled into the single configuration-error kind
wrapping the triggering message; in particular `connect` fails with an error
naming the host on any transport failure, and a failing `configure` raises a
message wrapping the step's message. -/
theorem single_error_kind_wraps (host e : String) (w : CommandOracle)
    (fw : String) :
    connect host (.error e) =
        .error ⟨"Failed to connect to " ++ host ++ ": " ++ e⟩ ∧
      listInfixOf host.data
        ("Failed to connect to " ++ host ++ ": " ++ e).data = true ∧
      listInfixOf e.data
        ("Failed to connect to " ++ host ++ ": " ++ e).data = true ∧
      (∀ err, (configureNamed w fw).2 = some err →
        ∃ m, err.message = "Failed to configure BIND: " ++ m) := by
  refine ⟨rfl, ?_, ?_, ?_⟩
  · have hdata : ("Failed to connect to " ++ host ++ ": " ++ e).data =
        ("Failed to connect to " : String).data ++
          (host.data ++ ((": " : String).data ++ e.data)) := by
      simp [String.data_append]
    rw [hdata]
    exact listInfixOf_append _ _ _
  · have hdata : ("Failed to connect to " ++ host ++ ": " ++ e).data =
        (("Failed to connect to " : String).data ++ host.data ++
          (": " : String).data) ++ (e.data ++ []) := by
      simp [String.data_append]
    rw [hdata]
    exact listInfixOf_append _ _ _
  · intro err herr
    rw [configureNamed] at herr
    rcases hh : configureNamedRaw w fw with ⟨acts, m?⟩
    rw [hh] at herr
    cases m? with
    | none => simp at herr
    | some m =>
      simp at herr
      exact ⟨m, by rw [← herr]⟩

theorem single_error_kind_wraps_witness :
    connect "dns1" (.error "timeout") =
        .error ⟨"Failed to connect to " ++ "dns1" ++ ": " ++ "timeout"⟩ ∧
      ∃ m, ("Failed to configure BIND: named.conf syntax error: boom" :
          String) = "Failed to configure BIND: " ++ m :=
  ⟨(single_error_kind_wraps "dns1" "timeout" oracleConfFail "8.8.8.8").1,
    (single_error_kind_wraps "dns1" "timeout" oracleConfFail "8.8.8.8").2.2.2
      ⟨"Failed to configure BIND: named.conf syntax error: boom"⟩
      (by decide)⟩

theorem listCharMatch_refl : ∀ l : List Char, listCharMatch l l = true := by
  intro l
  induction l with
  | nil => rfl
  | cons c l' ih =>
    have hc : charMatch c c = true := by
      by_cases h : c = '.'
      · subst h; decide
      · simp [charMatch, h]
    simp [listCharMatch, hc, ih]

/-- C1 (amended): on a main configuration of non-overlapping simple zone
stanzas, `delete_zone`'s rewrite removes exactly the stanzas whose names
match the given name with each `'.'` in it read as the regex single-character
wildcard — in particular the stanza named exactly the given name — and keeps
every other stanza and all separator text character for character. -/
theorem delete_zone_removes_matching_stanzas (target : String)
    (items : List (String × Stanza)) (t : String)
    (htgt : targetOk target = true)
    (hok : ∀ p ∈ items, sepOk p.1 = true ∧ stanzaOk p.2 = true)
    (ht : trailingOk t = true) :
    deleteZoneNewContent target (String.mk (renderItems items t)) =
        String.mk (deleteRender target items t) ∧
      listCharMatch target.data target.data = true :=
  ⟨congrArg String.mk (reSub_renderItems htgt items t hok ht),
    listCharMatch_refl target.data⟩

theorem delete_zone_removes_matching_stanzas_witness :
    deleteZoneNewContent "a.b"
        (String.mk (renderItems [("x\n", ⟨"a.b", "ty"⟩)] "w")) =
      String.mk (deleteRender "a.b" [("x\n", ⟨"a.b", "ty"⟩)] "w") :=
  (delete_zone_removes_matching_stanzas "a.b" [("x\n", ⟨"a.b", "ty"⟩)] "w"
    (by decide) (by decide) (by decide)).1

/-- C1, as stated, is false: the zone name is spliced into the regex
unescaped, so deleting `a.b` also deletes the distinct zone `aXb` — the
other zone's stanza is not left intact. -/
theorem delete_zone_exact_claim_false :
    deleteZoneNewContent "a.b"
        (String.mk (renderItems
          [("x\n", ⟨"a.b", "ty"⟩), ("y\n", ⟨"aXb", "tz"⟩)] "w")) =
      "x\ny\nw" ∧
    "x\ny\nw" ≠
      String.mk (renderItems [("x\ny\n", ⟨"aXb", "tz"⟩)] "w") := by
  constructor
  · decide
  · decide

end DnsManager
